import Mathlib

/-!
Verification of the marlinflow trainer (`trainer/main.py`, `trainer/model.py`).

The networks are built from `torch.nn.Linear` layers applied to dense
matrices obtained by materialising sparse COO index/value lists
(`torch.sparse_coo_tensor(indices, values, shape).to_dense()` sums the
values of duplicate coordinates).  We embed a linear layer as a weight
function `output index → input index → ℚ` together with a bias
`output index → ℚ`, and a batch's per-perspective feature list as a list
of `(example_index, feature_index)` pairs aligned with a list of values.
Real-valued activations (`torch.sigmoid`) are abstracted as an arbitrary
function where the claims do not depend on their shape.
-/

namespace Marlinflow

/-- Embedding of `torch.nn.Linear`: `weight o j` is the entry at output
coordinate `o`, input coordinate `j` (torch stores weight as
`(out_features, in_features)`), and `bias o` the bias entry. -/
structure Linear where
  weight : ℕ → ℕ → ℚ
  bias : ℕ → ℚ

/-- `y = W x + b` at output coordinate `o`, for an input vector `x` of
dimension `inDim`. -/
def linearForward (L : Linear) (inDim : ℕ) (x : ℕ → ℚ) (o : ℕ) : ℚ :=
  (∑ j ∈ Finset.range inDim, L.weight o j * x j) + L.bias o

/-- Entry `(i, j)` of the dense board obtained from
`torch.sparse_coo_tensor(indices, values, (batch.size, dim)).to_dense()`:
the sum of every value whose coordinate pair equals `(i, j)` (duplicate
coordinates are summed by `to_dense`). -/
def denseEntry (pairs : List (ℕ × ℕ)) (values : List ℚ) (i j : ℕ) : ℚ :=
  ((pairs.zip values).map (fun pv => if pv.1.1 = i ∧ pv.1.2 = j then pv.2 else 0)).sum

/-- The sparse characterisation of one output row: the sum, over the active
features of example `i`, of `w feature_index * value`. -/
def sparseRowSum (w : ℕ → ℚ) (pairs : List (ℕ × ℕ)) (values : List ℚ) (i : ℕ) : ℚ :=
  ((pairs.zip values).map (fun pv => if pv.1.1 = i then w pv.1.2 * pv.2 else 0)).sum

lemma denseEntry_nil (values : List ℚ) (i j : ℕ) : denseEntry [] values i j = 0 := by
  simp [denseEntry]

lemma denseEntry_cons (e f : ℕ) (v : ℚ) (ps : List (ℕ × ℕ)) (vs : List ℚ) (i j : ℕ) :
    denseEntry ((e, f) :: ps) (v :: vs) i j =
      (if e = i ∧ f = j then v else 0) + denseEntry ps vs i j := by
  simp [denseEntry]

/-- Multiplying a weight vector against a densified sparse row and summing
over the full input dimension is the same as summing the addressed weight
entries over the active features, provided every feature index is within
the input dimension. -/
lemma sum_range_mul_denseEntry (w : ℕ → ℚ) (pairs : List (ℕ × ℕ)) (values : List ℚ)
    (i d : ℕ) (h : ∀ p ∈ pairs, p.2 < d) :
    ∑ j ∈ Finset.range d, w j * denseEntry pairs values i j =
      sparseRowSum w pairs values i := by
  induction pairs generalizing values with
  | nil => simp [denseEntry_nil, sparseRowSum]
  | cons p ps ih =>
    obtain ⟨e, f⟩ := p
    cases values with
    | nil => simp [denseEntry, sparseRowSum]
    | cons v vs =>
      have hf : f < d := h (e, f) (List.mem_cons_self _ _)
      have hps : ∀ q ∈ ps, q.2 < d := fun q hq => h q (List.mem_cons_of_mem _ hq)
      have hsingle : ∑ j ∈ Finset.range d, w j * (if e = i ∧ f = j then v else 0) =
          if e = i then w f * v else 0 := by
        by_cases he : e = i
        · have : ∀ j ∈ Finset.range d,
              w j * (if e = i ∧ f = j then v else 0) = if f = j then w j * v else 0 := by
            intro j _
            by_cases hj : f = j <;> simp [he, hj]
          rw [Finset.sum_congr rfl this, Finset.sum_ite_eq]
          simp [Finset.mem_range.mpr hf, he]
        · simp [he]
      calc
        ∑ j ∈ Finset.range d, w j * denseEntry ((e, f) :: ps) (v :: vs) i j
            = ∑ j ∈ Finset.range d,
                (w j * (if e = i ∧ f = j then v else 0) + w j * denseEntry ps vs i j) := by
              refine Finset.sum_congr rfl fun j _ => ?_
              rw [denseEntry_cons, mul_add]
        _ = (∑ j ∈ Finset.range d, w j * (if e = i ∧ f = j then v else 0))
              + ∑ j ∈ Finset.range d, w j * denseEntry ps vs i j := Finset.sum_add_distrib
        _ = (if e = i then w f * v else 0) + sparseRowSum w ps vs i := by
              rw [hsingle, ih vs hps]
        _ = sparseRowSum w ((e, f) :: ps) (v :: vs) i := by
              simp [sparseRowSum]

/-- Remapping every feature index with `g` before densifying is the same as
applying the weights through `g` on the original feature list. -/
lemma sparseRowSum_map (w : ℕ → ℚ) (g : ℕ → ℕ) (pairs : List (ℕ × ℕ))
    (values : List ℚ) (i : ℕ) :
    sparseRowSum w (pairs.map fun p => (p.1, g p.2)) values i =
      sparseRowSum (fun f => w (g f)) pairs values i := by
  unfold sparseRowSum
  rw [List.zip_map_left, List.map_map]
  rfl

/-- `PerspectiveNet.forward` / `SquaredPerspectiveNet.forward`
feature-transformer output for one perspective: densify the sparse board
over 768 columns and apply the `perspective` linear layer.  `i` is the
example (row) index, `o` the output coordinate. -/
def perspectiveFt (perspective : Linear) (pairs : List (ℕ × ℕ)) (values : List ℚ)
    (i o : ℕ) : ℚ :=
  linearForward perspective 768 (denseEntry pairs values i) o

/-- Claim C1: under BOARD_768, row `i` of the perspective feature-transformer
output at output coordinate `o` equals the sum over the active features of
example `i` of `weight_row[feature_index] * value`, plus the bias (added once
per row). -/
theorem perspectiveFt_row (perspective : Linear) (pairs : List (ℕ × ℕ))
    (values : List ℚ) (i o : ℕ) (h : ∀ p ∈ pairs, p.2 < 768) :
    perspectiveFt perspective pairs values i o =
      sparseRowSum (fun f => perspective.weight o f) pairs values i
        + perspective.bias o := by
  unfold perspectiveFt linearForward
  rw [sum_range_mul_denseEntry _ _ _ _ _ h]

/-- A concrete weight assignment for the C1 scenario: weight row 5 is the
vector `(7, 11)`, all other rows zero, zero bias. -/
def c1Layer : Linear :=
  ⟨fun o f => if f = 5 then (if o = 0 then 7 else 11) else 0, fun _ => 0⟩

/-- Witness for C1: one example whose only active stm feature is index 5 with
value 1 and zero bias; the pre-activation perspective output equals weight
row 5 (`7` at output coordinate 0, `11` at output coordinate 1). -/
theorem perspectiveFt_row_witness :
    (∀ p ∈ [((0 : ℕ), (5 : ℕ))], p.2 < 768)
      ∧ perspectiveFt c1Layer [(0, 5)] [1] 0 0 = c1Layer.weight 0 5
      ∧ perspectiveFt c1Layer [(0, 5)] [1] 0 1 = c1Layer.weight 1 5 := by
  refine ⟨by decide, ?_, ?_⟩
  · rw [perspectiveFt_row c1Layer [(0, 5)] [1] 0 0 (by decide)]
    simp [sparseRowSum, c1Layer]
  · rw [perspectiveFt_row c1Layer [(0, 5)] [1] 0 1 (by decide)]
    simp [sparseRowSum, c1Layer]

/-- `HalfKPNet.forward` factorizer index remap: `v_stm_indices[1][:] %= 640`. -/
def factIndexHalfKP (f : ℕ) : ℕ := f % 640

/-- `HalfKANet.forward` factorizer index remap: `v_stm_indices[1][:] %= 768`. -/
def factIndexHalfKA (f : ℕ) : ℕ := f % 768

/-- `HalfKPNet.forward` feature-transformer output for one perspective:
`self.ft` (dim 40960) on the sparse board plus `self.fft` (dim 640) on the
board with every feature index reduced mod 640. -/
def halfKPFt (ft fft : Linear) (pairs : List (ℕ × ℕ)) (values : List ℚ)
    (i o : ℕ) : ℚ :=
  linearForward ft 40960 (denseEntry pairs values i) o
    + linearForward fft 640
        (denseEntry (pairs.map fun p => (p.1, factIndexHalfKP p.2)) values i) o

/-- `HalfKANet.forward` feature-transformer output for one perspective:
`self.ft` (dim 49152) on the sparse board plus `self.fft` (dim 768) on the
board with every feature index reduced mod 768. -/
def halfKAFt (ft fft : Linear) (pairs : List (ℕ × ℕ)) (values : List ℚ)
    (i o : ℕ) : ℚ :=
  linearForward ft 49152 (denseEntry pairs values i) o
    + linearForward fft 768
        (denseEntry (pairs.map fun p => (p.1, factIndexHalfKA p.2)) values i) o

lemma halfKPFt_row (ft fft : Linear) (pairs : List (ℕ × ℕ)) (values : List ℚ)
    (i o : ℕ) (h : ∀ p ∈ pairs, p.2 < 40960) :
    halfKPFt ft fft pairs values i o =
      sparseRowSum (fun f => ft.weight o f) pairs values i + ft.bias o
        + (sparseRowSum (fun f => fft.weight o (factIndexHalfKP f)) pairs values i
            + fft.bias o) := by
  unfold halfKPFt linearForward
  rw [sum_range_mul_denseEntry _ _ _ _ _ h,
    sum_range_mul_denseEntry _ _ _ _ 640
      (by
        intro p hp
        simp only [List.mem_map] at hp
        obtain ⟨q, _, rfl⟩ := hp
        exact Nat.mod_lt _ (by norm_num)),
    sparseRowSum_map]

lemma halfKAFt_row (ft fft : Linear) (pairs : List (ℕ × ℕ)) (values : List ℚ)
    (i o : ℕ) (h : ∀ p ∈ pairs, p.2 < 49152) :
    halfKAFt ft fft pairs values i o =
      sparseRowSum (fun f => ft.weight o f) pairs values i + ft.bias o
        + (sparseRowSum (fun f => fft.weight o (factIndexHalfKA f)) pairs values i
            + fft.bias o) := by
  unfold halfKAFt linearForward
  rw [sum_range_mul_denseEntry _ _ _ _ _ h,
    sum_range_mul_denseEntry _ _ _ _ 768
      (by
        intro p hp
        simp only [List.mem_map] at hp
        obtain ⟨q, _, rfl⟩ := hp
        exact Nat.mod_lt _ (by norm_num)),
    sparseRowSum_map]

/-- Claim C2: under the bucketed encodings, the factorizer lookup index is
`feature_index mod base_dim` (640 for HALF_KP, 768 for HALF_KA), which
discards the king-bucket component, and each perspective output row is the
main-table sparse sum plus the factorizer sparse sum at the folded index. -/
theorem factorizer_mod_lookup :
    (∀ bucket base : ℕ, base < 640 → factIndexHalfKP (bucket * 640 + base) = base)
      ∧ (∀ bucket base : ℕ, base < 768 → factIndexHalfKA (bucket * 768 + base) = base)
      ∧ (∀ (ft fft : Linear) (pairs : List (ℕ × ℕ)) (values : List ℚ) (i o : ℕ),
          (∀ p ∈ pairs, p.2 < 40960) →
          halfKPFt ft fft pairs values i o =
            sparseRowSum (fun f => ft.weight o f) pairs values i + ft.bias o
              + (sparseRowSum (fun f => fft.weight o (factIndexHalfKP f)) pairs values i
                  + fft.bias o))
      ∧ (∀ (ft fft : Linear) (pairs : List (ℕ × ℕ)) (values : List ℚ) (i o : ℕ),
          (∀ p ∈ pairs, p.2 < 49152) →
          halfKAFt ft fft pairs values i o =
            sparseRowSum (fun f => ft.weight o f) pairs values i + ft.bias o
              + (sparseRowSum (fun f => fft.weight o (factIndexHalfKA f)) pairs values i
                  + fft.bias o)) := by
  refine ⟨fun bucket base hb => ?_, fun bucket base hb => ?_,
    halfKPFt_row, halfKAFt_row⟩
  · unfold factIndexHalfKP
    omega
  · unfold factIndexHalfKA
    omega

/-- Main table for the C2 witness: entry 5 at feature 1937 (output row 0). -/
def c2Ft : Linear := ⟨fun _ f => if f = 1937 then 5 else 0, fun _ => 0⟩

/-- Factorizer table for the C2 witness: entry 3 at folded feature 17. -/
def c2Fft : Linear := ⟨fun _ f => if f = 17 then 3 else 0, fun _ => 0⟩

/-- Witness for C2: the HALF_KP feature `f = 3 * 640 + 17 = 1937` folds to
factorizer index 17, and the perspective output on a one-feature example is
the main entry plus the factorizer entry, `5 + 3 = 8`. -/
theorem factorizer_mod_lookup_witness :
    factIndexHalfKP (3 * 640 + 17) = 17
      ∧ halfKPFt c2Ft c2Fft [(0, 3 * 640 + 17)] [1] 0 0 = 8 := by
  constructor
  · exact factorizer_mod_lookup.1 3 17 (by norm_num)
  · rw [factorizer_mod_lookup.2.2.1 c2Ft c2Fft [(0, 3 * 640 + 17)] [1] 0 0 (by decide)]
    norm_num [sparseRowSum, c2Ft, c2Fft, factIndexHalfKP]

/-- `torch.clamp(x, 0, 1)` on rationals. -/
def clamp01 (x : ℚ) : ℚ := min 1 (max 0 x)

/-- `torch.cat((stm, nstm), dim=1)` followed by `torch.clamp(·, 0, 1)`:
coordinate `j` of the hidden vector is the clamped stm output for
`j < ftOut` and the clamped nstm output for `ftOut ≤ j`. -/
def hiddenConcat (ftOut : ℕ) (stm nstm : ℕ → ℚ) (j : ℕ) : ℚ :=
  if j < ftOut then clamp01 (stm j) else clamp01 (nstm (j - ftOut))

/-- `HalfKANet.forward` for example `i`: both perspective feature-transformer
outputs (main table `ft` plus factorizer `fft`), concatenated stm-first,
clamped to `[0, 1]`, passed through the output layer and the final
activation `σ` (`torch.sigmoid`, kept abstract). -/
def halfKANetOut (σ : ℚ → ℚ) (ftOut : ℕ) (ft fft out : Linear)
    (stmPairs nstmPairs : List (ℕ × ℕ)) (values : List ℚ) (i : ℕ) : ℚ :=
  σ (linearForward out (2 * ftOut)
      (hiddenConcat ftOut (halfKAFt ft fft stmPairs values i)
        (halfKAFt ft fft nstmPairs values i)) 0)

/-- A HalfKA feature transformer with the factorizer removed: only the main
table is applied. -/
def halfKAFtNoFact (ft : Linear) (pairs : List (ℕ × ℕ)) (values : List ℚ)
    (i o : ℕ) : ℚ :=
  linearForward ft 49152 (denseEntry pairs values i) o

/-- `HalfKANet` evaluation with the factorizer contribution removed. -/
def halfKANetOutNoFact (σ : ℚ → ℚ) (ftOut : ℕ) (ft out : Linear)
    (stmPairs nstmPairs : List (ℕ × ℕ)) (values : List ℚ) (i : ℕ) : ℚ :=
  σ (linearForward out (2 * ftOut)
      (hiddenConcat ftOut (halfKAFtNoFact ft stmPairs values i)
        (halfKAFtNoFact ft nstmPairs values i)) 0)

/-- Folding exactly as the claim states it: each main-table column (the
weight entries addressed by one feature index) receives the factorizer
column for its folded index, and nothing else changes.  The factorizer's
bias is NOT moved into the main bias. -/
def foldFactorizerKA (ft fft : Linear) : Linear :=
  ⟨fun o f => ft.weight o f + fft.weight o (factIndexHalfKA f), ft.bias⟩

/-- Full folding: weights as in `foldFactorizerKA`, and additionally the
factorizer bias is added into the main bias. -/
def foldFactorizerKAFull (ft fft : Linear) : Linear :=
  ⟨fun o f => ft.weight o f + fft.weight o (factIndexHalfKA f),
    fun o => ft.bias o + fft.bias o⟩

/-- Zero main table. -/
def c3FtZero : Linear := ⟨fun _ _ => 0, fun _ => 0⟩

/-- Factorizer with zero weights but bias 1. -/
def c3FftBias : Linear := ⟨fun _ _ => 0, fun _ => 1⟩

/-- Output layer of ones with zero bias. -/
def c3Out : Linear := ⟨fun _ _ => 1, fun _ => 0⟩

lemma halfKAFtNoFact_empty (L : Linear) (i o : ℕ) :
    halfKAFtNoFact L [] [] i o = L.bias o := by
  unfold halfKAFtNoFact linearForward
  have hz : ∀ j ∈ Finset.range 49152,
      L.weight o j * denseEntry [] [] i j = 0 := by
    intro j _
    rw [denseEntry_nil, mul_zero]
  rw [Finset.sum_congr rfl hz, Finset.sum_const_zero, zero_add]

lemma halfKAFt_empty (ft fft : Linear) (i o : ℕ) :
    halfKAFt ft fft [] [] i o = ft.bias o + fft.bias o := by
  rw [halfKAFt_row ft fft [] [] i o (by simp)]
  simp [sparseRowSum]

/-- Counterexample to C3 as stated: with a zero main table, a factorizer of
zero weights but bias 1, a ones output layer, identity final activation and
an empty feature list, evaluating with both tables yields 2 while evaluating
with the weight-only fold and the factorizer removed yields 0 — weight-only
folding drops the factorizer bias. -/
theorem foldFactorizer_weight_only_fails :
    halfKANetOutNoFact id 1 (foldFactorizerKA c3FtZero c3FftBias) c3Out
        [] [] [] 0
      ≠ halfKANetOut id 1 c3FtZero c3FftBias c3Out [] [] [] 0 := by
  have h1 : ∀ o : ℕ,
      halfKAFtNoFact (foldFactorizerKA c3FtZero c3FftBias) [] [] 0 o = 0 := by
    intro o
    rw [halfKAFtNoFact_empty]
    rfl
  have h2 : ∀ o : ℕ, halfKAFt c3FtZero c3FftBias [] [] 0 o = 1 := by
    intro o
    rw [halfKAFt_empty]
    norm_num [c3FtZero, c3FftBias]
  unfold halfKANetOutNoFact halfKANetOut linearForward
  rw [show (2 * 1 : ℕ) = 2 from rfl, Finset.sum_range_succ, Finset.sum_range_succ,
    Finset.sum_range_zero]
  unfold hiddenConcat
  norm_num [h1, h2, clamp01, c3Out]

/-- Pointwise agreement of the fully folded single table with the
two-table HalfKA feature transformer. -/
lemma foldFull_ft_eq (ft fft : Linear) (pairs : List (ℕ × ℕ)) (values : List ℚ)
    (i o : ℕ) (h : ∀ p ∈ pairs, p.2 < 49152) :
    halfKAFtNoFact (foldFactorizerKAFull ft fft) pairs values i o =
      halfKAFt ft fft pairs values i o := by
  rw [halfKAFt_row ft fft pairs values i o h]
  unfold halfKAFtNoFact linearForward foldFactorizerKAFull
  simp only
  have hsplit : ∑ j ∈ Finset.range 49152,
      (ft.weight o j + fft.weight o (factIndexHalfKA j)) * denseEntry pairs values i j
      = (∑ j ∈ Finset.range 49152, ft.weight o j * denseEntry pairs values i j)
        + ∑ j ∈ Finset.range 49152,
            fft.weight o (factIndexHalfKA j) * denseEntry pairs values i j := by
    rw [← Finset.sum_add_distrib]
    exact Finset.sum_congr rfl fun j _ => add_mul _ _ _
  rw [hsplit, sum_range_mul_denseEntry _ _ _ _ _ h,
    sum_range_mul_denseEntry _ _ _ _ _ h]
  ring

/-- Claim C3 amended: folding the factorizer into the main table — adding,
for each bucket, the factorizer column for base index `b` to the main-table
column for `(bucket, b)` AND the factorizer bias to the main bias — and then
evaluating with the factorizer removed produces the same network output as
evaluating with both tables present, for every input and every weight
setting. -/
theorem foldFactorizerFull_eval_eq (σ : ℚ → ℚ) (ftOut : ℕ) (ft fft out : Linear)
    (stmPairs nstmPairs : List (ℕ × ℕ)) (values : List ℚ) (i : ℕ)
    (hstm : ∀ p ∈ stmPairs, p.2 < 49152) (hnstm : ∀ p ∈ nstmPairs, p.2 < 49152) :
    halfKANetOutNoFact σ ftOut (foldFactorizerKAFull ft fft) out
        stmPairs nstmPairs values i
      = halfKANetOut σ ftOut ft fft out stmPairs nstmPairs values i := by
  have hhidden :
      hiddenConcat ftOut
          (halfKAFtNoFact (foldFactorizerKAFull ft fft) stmPairs values i)
          (halfKAFtNoFact (foldFactorizerKAFull ft fft) nstmPairs values i)
        = hiddenConcat ftOut (halfKAFt ft fft stmPairs values i)
            (halfKAFt ft fft nstmPairs values i) := by
    funext j
    unfold hiddenConcat
    by_cases hj : j < ftOut
    · rw [if_pos hj, if_pos hj, foldFull_ft_eq ft fft stmPairs values i j hstm]
    · rw [if_neg hj, if_neg hj,
        foldFull_ft_eq ft fft nstmPairs values i (j - ftOut) hnstm]
  unfold halfKANetOutNoFact halfKANetOut
  rw [hhidden]

/-- Witness for the amended C3: the full fold reproduces the two-table
evaluation on the concrete configuration of the counterexample. -/
theorem foldFactorizerFull_eval_eq_witness :
    (∀ p ∈ ([] : List (ℕ × ℕ)), p.2 < 49152)
      ∧ halfKANetOutNoFact id 1 (foldFactorizerKAFull c3FtZero c3FftBias) c3Out
            [] [] [] 0
          = halfKANetOut id 1 c3FtZero c3FftBias c3Out [] [] [] 0 :=
  ⟨by simp, foldFactorizerFull_eval_eq id 1 c3FtZero c3FftBias c3Out [] [] [] 0
    (by simp) (by simp)⟩

/-- The training target of `train` (main.py line 94):
`expected = torch.sigmoid(batch.cp / scale) * (1 - wdl) + batch.wdl * wdl`,
per example, with the sigmoid kept abstract as `σ`. -/
def expectedTarget (σ : ℚ → ℚ) (scale wdl cp wdlLabel : ℚ) : ℚ :=
  σ (cp / scale) * (1 - wdl) + wdlLabel * wdl

/-- Claim C4: the target is computed as
`sigmoid(cp / scale) * (1 - wdl_weight) + wdl_label * wdl_weight`;
`wdl_weight = 0` yields `sigmoid(cp / scale)` and `wdl_weight = 1` yields
the wdl label, independent of `cp`. -/
theorem expectedTarget_blend (σ : ℚ → ℚ) (scale wdl cp wdlLabel : ℚ) :
    expectedTarget σ scale wdl cp wdlLabel
        = σ (cp / scale) * (1 - wdl) + wdlLabel * wdl
      ∧ expectedTarget σ scale 0 cp wdlLabel = σ (cp / scale)
      ∧ expectedTarget σ scale 1 cp wdlLabel = wdlLabel := by
  refine ⟨rfl, ?_, ?_⟩ <;> simp [expectedTarget]

/-- `WeightClipper.__call__` on one weight entry:
`w.clamp(-1.98, 1.98)`. -/
def clampWeight (x : ℚ) : ℚ := min (1.98 : ℚ) (max (-(1.98 : ℚ)) x)

/-- `WeightClipper.__call__` on a module that has a `weight` attribute:
the weight tensor is clamped entrywise, everything else (in particular the
bias) is left as it is. -/
def weightClipper (L : Linear) : Linear :=
  ⟨fun o j => clampWeight (L.weight o j), L.bias⟩

/-- Parameters of `SquaredPerspectiveNet` (the model `main` constructs):
the `perspective` layer and the `out` layer. -/
structure SquaredPerspectiveNetParams where
  perspective : Linear
  out : Linear

/-- `model.apply(clipper)`: the clipper visits every submodule; both linear
layers have a `weight` attribute, so both are clamped. -/
def applyClipper (p : SquaredPerspectiveNetParams) : SquaredPerspectiveNetParams :=
  ⟨weightClipper p.perspective, weightClipper p.out⟩

/-- One parameter update of the training loop (main.py lines 98-99):
`optimizer.step()` (an arbitrary update of every parameter) immediately
followed by `model.apply(clipper)`, before the next forward pass reads the
parameters. -/
def optimStepClipped
    (optStep : SquaredPerspectiveNetParams → SquaredPerspectiveNetParams)
    (p : SquaredPerspectiveNetParams) : SquaredPerspectiveNetParams :=
  applyClipper (optStep p)

lemma clampWeight_mem (x : ℚ) :
    -(1.98 : ℚ) ≤ clampWeight x ∧ clampWeight x ≤ 1.98 := by
  constructor
  · exact le_min (by norm_num) (le_max_left _ _)
  · exact min_le_left _ _

/-- Claim C5: after every optimizer step followed by the weight projection,
every linear layer's weight tensor has all entries in `[-1.98, 1.98]`,
whatever the optimizer did. -/
theorem optimStepClipped_weight_bounds
    (optStep : SquaredPerspectiveNetParams → SquaredPerspectiveNetParams)
    (p : SquaredPerspectiveNetParams) (o j : ℕ) :
    (-(1.98 : ℚ) ≤ (optimStepClipped optStep p).perspective.weight o j
        ∧ (optimStepClipped optStep p).perspective.weight o j ≤ 1.98)
      ∧ (-(1.98 : ℚ) ≤ (optimStepClipped optStep p).out.weight o j
          ∧ (optimStepClipped optStep p).out.weight o j ≤ 1.98) :=
  ⟨clampWeight_mem _, clampWeight_mem _⟩

/-- Claim C10: the weight projection mutates only the `weight` tensor of
each module; the bias vectors of both layers are returned unchanged, so
bias values are never clamped. -/
theorem applyClipper_preserves_bias (p : SquaredPerspectiveNetParams) :
    (applyClipper p).perspective.bias = p.perspective.bias
      ∧ (applyClipper p).out.bias = p.out.bias :=
  ⟨rfl, rfl⟩

/-- Observable actions of one iteration of the `train` loop. -/
inductive TrainEvent where
  | reportEpoch : TrainEvent
  | saveCheckpoint : TrainEvent
  | schedulerStep : TrainEvent
  | trainOn : ℕ → TrainEvent
  deriving DecidableEq

/-- One iteration of the `while epoch < epochs` loop in `train`
(main.py lines 65-99), as the epoch counter update together with the ordered
list of observable actions.  When `read_batch` reports `new_epoch`, the
epoch counter is incremented, the epoch loss/throughput report is printed,
the checkpoint is saved when the new epoch is a multiple of `save_epochs`,
the scheduler is stepped, and only then is the returned batch trained on;
otherwise the batch is trained on directly. -/
def trainIteration (saveEpochs epoch : ℕ) (newEpoch : Bool) (batchId : ℕ) :
    ℕ × List TrainEvent :=
  if newEpoch then
    (epoch + 1,
      [TrainEvent.reportEpoch]
        ++ (if (epoch + 1) % saveEpochs = 0 then [TrainEvent.saveCheckpoint] else [])
        ++ [TrainEvent.schedulerStep, TrainEvent.trainOn batchId])
  else (epoch, [TrainEvent.trainOn batchId])

/-- Claim C6: in an iteration whose batch carries `new_epoch = true`, the
epoch-end actions — the epoch report, the checkpoint save when the new epoch
is a multiple of `save_epochs`, and the scheduler step — all happen strictly
before the returned batch is trained on, and that batch is still trained on
as the final action of the iteration; the epoch counter advances by one. -/
theorem trainIteration_new_epoch_order (saveEpochs epoch batchId : ℕ) :
    (trainIteration saveEpochs epoch true batchId).1 = epoch + 1
      ∧ ((trainIteration saveEpochs epoch true batchId).2).getLast?
          = some (TrainEvent.trainOn batchId)
      ∧ TrainEvent.reportEpoch
          ∈ ((trainIteration saveEpochs epoch true batchId).2).dropLast
      ∧ TrainEvent.schedulerStep
          ∈ ((trainIteration saveEpochs epoch true batchId).2).dropLast
      ∧ ((epoch + 1) % saveEpochs = 0 →
          TrainEvent.saveCheckpoint
            ∈ ((trainIteration saveEpochs epoch true batchId).2).dropLast) := by
  unfold trainIteration
  by_cases hs : (epoch + 1) % saveEpochs = 0 <;>
    simp [hs, List.getLast?, List.dropLast]

/-- Witness for C6 at `save_epochs = 1`, `epoch = 0`, batch 0 (the save
condition holds, so all three epoch-end actions precede the training
action). -/
theorem trainIteration_new_epoch_order_witness :
    (trainIteration 1 0 true 0).1 = 0 + 1
      ∧ ((trainIteration 1 0 true 0).2).getLast? = some (TrainEvent.trainOn 0)
      ∧ TrainEvent.reportEpoch ∈ ((trainIteration 1 0 true 0).2).dropLast
      ∧ TrainEvent.schedulerStep ∈ ((trainIteration 1 0 true 0).2).dropLast
      ∧ TrainEvent.saveCheckpoint ∈ ((trainIteration 1 0 true 0).2).dropLast :=
  ⟨(trainIteration_new_epoch_order 1 0 0).1,
    (trainIteration_new_epoch_order 1 0 0).2.1,
    (trainIteration_new_epoch_order 1 0 0).2.2.1,
    (trainIteration_new_epoch_order 1 0 0).2.2.2.1,
    (trainIteration_new_epoch_order 1 0 0).2.2.2.2 (by norm_num)⟩

/-- `torch.optim.lr_scheduler.ExponentialLR` semantics: after `n` scheduler
steps the learning rate is `lr0 * gamma ^ n`.  Stated over any monoid so the
definition stays executable; the trainer instantiates it at the reals, with
`gamma = (lr_end / lr) ** (1 / epochs)` (main.py line 172). -/
def expSchedulerLR {M : Type} [Monoid M] (lr0 gamma : M) (n : ℕ) : M :=
  lr0 * gamma ^ n

/-- Claim C7: with a final learning rate configured, the decay factor is
`(end_lr / start_lr) ^ (1 / epochs)`, the scheduler is stepped exactly once
in every new-epoch iteration and never otherwise, and after exactly `epochs`
scheduler steps the learning rate equals `end_lr`. -/
theorem expScheduler_reaches_end (lrStart lrEnd : ℝ) (epochs : ℕ)
    (hs : 0 < lrStart) (he : 0 < lrEnd) (hn : 0 < epochs) :
    expSchedulerLR lrStart ((lrEnd / lrStart) ^ ((1 : ℝ) / (epochs : ℝ)))
        epochs = lrEnd
      ∧ (∀ saveEpochs epoch batchId : ℕ,
          ((trainIteration saveEpochs epoch true batchId).2).count
              TrainEvent.schedulerStep = 1
            ∧ ((trainIteration saveEpochs epoch false batchId).2).count
                TrainEvent.schedulerStep = 0) := by
  constructor
  · have hx : (0 : ℝ) < lrEnd / lrStart := div_pos he hs
    have hne : ((epochs : ℝ)) ≠ 0 := Nat.cast_ne_zero.mpr hn.ne'
    unfold expSchedulerLR
    rw [← Real.rpow_natCast ((lrEnd / lrStart) ^ ((1 : ℝ) / (epochs : ℝ))) epochs,
      ← Real.rpow_mul hx.le, one_div_mul_cancel hne, Real.rpow_one]
    field_simp
  · intro saveEpochs epoch batchId
    unfold trainIteration
    by_cases hsave : (epoch + 1) % saveEpochs = 0 <;>
      simp [hsave, List.count_cons, List.count_append]

/-- Witness for C7: `start_lr = 4`, `end_lr = 9`, two epochs; the learning
rate after two scheduler steps is exactly 9, and the scheduler-step counts
are as stated. -/
theorem expScheduler_reaches_end_witness :
    expSchedulerLR (4 : ℝ) ((9 / 4 : ℝ) ^ ((1 : ℝ) / ((2 : ℕ) : ℝ))) 2 = 9
      ∧ ((trainIteration 1 0 true 0).2).count TrainEvent.schedulerStep = 1 :=
  ⟨(expScheduler_reaches_end 4 9 2 (by norm_num) (by norm_num) (by norm_num)).1,
    ((expScheduler_reaches_end 4 9 2 (by norm_num) (by norm_num)
      (by norm_num)).2 1 0 0).1⟩

/-- The encoding descriptors of `dataloader.InputFeatureSet` used by the
models' `input_feature_set` methods. -/
inductive InputFeatureSet where
  | board768 : InputFeatureSet
  | halfKP : InputFeatureSet
  | halfKA : InputFeatureSet
  | board768Cuda : InputFeatureSet
  | halfKPCuda : InputFeatureSet
  | halfKACuda : InputFeatureSet
  deriving DecidableEq

/-- The closed set of network classes defined in `model.py`, with their
constructor arguments. -/
inductive NetVariant where
  | perspectiveNet (ftOut : ℕ) : NetVariant
  | squaredPerspectiveNet (ftOut : ℕ) : NetVariant
  | deepPerspectiveNet (ftOut layer2 : ℕ) : NetVariant
  | halfKPNet (ftOut : ℕ) : NetVariant
  | halfKANet (ftOut : ℕ) : NetVariant
  | nnBoard768Cuda (ftOut : ℕ) : NetVariant
  | nnHalfKPCuda (ftOut : ℕ) : NetVariant
  | nnHalfKACuda (ftOut : ℕ) : NetVariant
  deriving DecidableEq

/-- Each class's `input_feature_set` method. -/
def NetVariant.declaredFeatureSet : NetVariant → InputFeatureSet
  | .perspectiveNet _ => .board768
  | .squaredPerspectiveNet _ => .board768
  | .deepPerspectiveNet _ _ => .board768
  | .halfKPNet _ => .halfKP
  | .halfKANet _ => .halfKA
  | .nnBoard768Cuda _ => .board768Cuda
  | .nnHalfKPCuda _ => .halfKPCuda
  | .nnHalfKACuda _ => .halfKACuda

/-- The command-line options `main` recognises (main.py lines 126-149),
with their argparse defaults. -/
structure Args where
  dataRoot : Option String
  trainId : Option String
  lr : Option ℚ
  lrEnd : Option ℚ
  lrDrop : Option ℕ
  epochs : Option ℕ
  batchSize : ℕ := 16384
  wdl : ℚ := 0
  wdlDrop : Option ℚ
  scale : Option ℚ
  saveEpochs : ℕ := 100
  resume : Option String

/-- The model `main` constructs (main.py line 157):
`model = SquaredPerspectiveNet(768)`, for every parsed configuration. -/
def mainModel (_args : Args) : NetVariant :=
  NetVariant.squaredPerspectiveNet 768

/-- Claim C9: every run through the entry point constructs
`SquaredPerspectiveNet(768)` and therefore declares the BOARD_768 encoding
to the batch loader; no configuration option selects another variant. -/
theorem mainModel_fixed (args : Args) :
    mainModel args = NetVariant.squaredPerspectiveNet 768
      ∧ (mainModel args).declaredFeatureSet = InputFeatureSet.board768 :=
  ⟨rfl, rfl⟩

/-- The wdl blend weight `main` hands to `train` (main.py line 186): it
passes `args.wdl` and nothing else; `args.wdl_drop` is parsed but never
read again. -/
def trainWdlArg (args : Args) : ℚ := args.wdl

/-- The wdl weight used by the target computation at a given loop iteration:
`train` reads its `wdl` parameter unchanged in every iteration
(main.py line 94). -/
def wdlWeightAtIteration (args : Args) (_iteration : ℕ) : ℚ :=
  trainWdlArg args

/-- A run configured with `--wdl 0.0 --wdl-drop 0.5`. -/
def c8Args : Args :=
  { dataRoot := some "data", trainId := some "run", lr := some (1 / 1000),
    lrEnd := none, lrDrop := some 10, epochs := some 20, wdl := 0,
    wdlDrop := some (1 / 2), scale := some 400, resume := none }

/-- Claim C8 evaluated on the code: the wdl weight used for target blending
is `args.wdl` at every iteration, regardless of `args.wdl_drop`; on the
concrete configuration `--wdl 0.0 --wdl-drop 0.5` the blend weight stays 0
at every iteration and never becomes the configured post-drop value 1/2. -/
theorem wdlDrop_never_used :
    (∀ (args : Args) (iteration : ℕ),
        wdlWeightAtIteration args iteration = args.wdl)
      ∧ (∀ (args : Args) (d : Option ℚ) (iteration : ℕ),
          wdlWeightAtIteration { args with wdlDrop := d } iteration
            = wdlWeightAtIteration args iteration)
      ∧ c8Args.wdlDrop = some (1 / 2)
      ∧ (∀ iteration : ℕ, wdlWeightAtIteration c8Args iteration = 0) :=
  ⟨fun _ _ => rfl, fun _ _ _ => rfl, rfl, fun _ => rfl⟩

end Marlinflow
